import Mathlib

/-!
Verification of the SoftWhisper segmentation-and-transcription orchestrator
(`SoftWhisper-CPU.py`) against its natural-language specification.

The Python source is shallowly embedded: pure helpers (`parse_time`,
`format_timestamp`, the segment planner, the SRT renderer) become Lean
functions over `ℚ`, `Nat`, `String`; the orchestration loop of
`transcribe_file` becomes an explicit fold over a completion sequence with
cooperative-stop observations; the worker pool with the global model lock
becomes a small transition system.  Python `float` times are modelled by
exact rationals, Python `int()` truncation by an explicit floor-based
function.
-/

namespace SoftWhisper

/-! ## Time utilities -/

/-- Numeric value of an ASCII digit character (`'0'` has code 48). -/
def dv (c : Char) : Nat := c.toNat - 48

/-- Test for an ASCII digit, the regex class `\d`. -/
def isDig (c : Char) : Bool := 48 ≤ c.toNat && c.toNat ≤ 57

/-- Test for the regex class `[0-5]` (codes 48..53). -/
def isLowDig (c : Char) : Bool := 48 ≤ c.toNat && c.toNat ≤ 53

/-- Match of the regex group `(\d{1,2})` (hours) against a whole token:
one or two arbitrary digits. -/
def matchHH : List Char → Option Nat
  | [c] => if isDig c then some (dv c) else none
  | [c1, c2] => if isDig c1 && isDig c2 then some (10 * dv c1 + dv c2) else none
  | _ => none

/-- Match of the regex group `([0-5]?\d)` (minutes or seconds) against a
whole token: a single digit, or a two-digit value whose first digit is at
most 5. -/
def matchMS : List Char → Option Nat
  | [c] => if isDig c then some (dv c) else none
  | [c1, c2] => if isLowDig c1 && isDig c2 then some (10 * dv c1 + dv c2) else none
  | _ => none

/-- Python `re.match(r'...$', s)`: the anchor `$` also matches just before
one newline at the very end of the string, so such a newline is invisible
to the pattern. -/
def stripNL (cs : List Char) : List Char :=
  if cs.getLast? = some '\n' then cs.dropLast else cs

/-- Split a character list at each `':'`; the digit classes of the pattern
cannot match `':'`, so the three groups of `parse_time`'s regex are exactly
the parts between the colons. -/
def splitCols : List Char → List (List Char)
  | [] => [[]]
  | c :: rest =>
    if c = ':' then [] :: splitCols rest
    else
      match splitCols rest with
      | [] => [[c]]
      | g :: gs => (c :: g) :: gs

/-- Embedding of `SoftWhisper.parse_time` (source lines 1231-1238):
`re.match(r'^(\d{1,2}):([0-5]?\d):([0-5]?\d)$', time_str)`, then
`hours * 3600 + minutes * 60 + seconds`; `none` models the raised
`ValueError`. -/
def parseChars (cs : List Char) : Option Nat :=
  match splitCols (stripNL cs) with
  | [hG, mG, sG] =>
    match matchHH hG, matchMS mG, matchMS sG with
    | some h, some m, some s => some (h * 3600 + m * 60 + s)
    | _, _, _ => none
  | _ => none

/-- String-level entry point of the embedded `parse_time`. -/
def parse_time (str : String) : Option Nat :=
  parseChars str.data

/-- The acceptance shape claimed by the spec, written from the spec's words
(for comparison with `parse_time`, which is taken from the source): exactly
`H:MM:SS` or `HH:MM:SS` with two-digit minutes and seconds whose values lie
in `[0, 59]`. -/
def spec_time_shape (str : String) : Bool :=
  match str.data with
  | [h1, c1, m1, m2, c2, s1, s2] =>
    isDig h1 && (c1 == ':') && (c2 == ':') &&
      isDig m1 && isDig m2 && isDig s1 && isDig s2 &&
      decide (10 * dv m1 + dv m2 ≤ 59) && decide (10 * dv s1 + dv s2 ≤ 59)
  | [h1, h2, c1, m1, m2, c2, s1, s2] =>
    isDig h1 && isDig h2 && (c1 == ':') && (c2 == ':') &&
      isDig m1 && isDig m2 && isDig s1 && isDig s2 &&
      decide (10 * dv m1 + dv m2 ≤ 59) && decide (10 * dv s1 + dv s2 ≤ 59)
  | _ => false

/-- ASCII digit character of a value below ten. -/
def digitC (d : Nat) : Char := Char.ofNat (48 + d)

/-- Two-digit zero-padded decimal rendering of a value below 100,
as produced by an f-string `{n:02}` for such values. -/
def pad2L (n : Nat) : List Char := [digitC (n / 10), digitC (n % 10)]

/-- The canonical `HH:MM:SS` rendering used to state what `parse_time`
accepts. -/
def timeStr (h m s : Nat) : String :=
  String.mk (pad2L h ++ ':' :: (pad2L m ++ ':' :: pad2L s))

/-! ## Segment planner -/

/-- A planner segment dict `{"speaker": ..., "start": ..., "end": ...}`;
`end` is a Lean keyword, so that field is called `stop` here.  Times are
seconds into the trimmed audio, modelled as exact rationals. -/
structure Seg where
  speaker : String
  start : ℚ
  stop : ℚ
deriving DecidableEq

/-- Floor of a rational; `Int./` is Euclidean division, which for the
positive denominator is the floor, matching `Rat.floor`. -/
def ratFloor (q : ℚ) : ℤ := q.num / q.den

/-- Python `int()`: truncation toward zero. -/
def pyInt (q : ℚ) : ℤ := if 0 ≤ q then ratFloor q else -ratFloor (-q)

/-- One fixed-grid window (source lines 1037-1044): chunk `i` spans
`[i * MAX_CHUNK_DURATION, (i+1) * MAX_CHUNK_DURATION)` with the single
label `"Speaker 1"`. -/
def gridSeg (mcd : ℚ) (i : Nat) : Seg :=
  ⟨"Speaker 1", (i : ℚ) * mcd, ((i : ℚ) + 1) * mcd⟩

/-- Fixed-grid planning (source lines 1033-1053, diarization disabled):
`num_full_chunks = int(trimmed_duration // MAX_CHUNK_DURATION)` full
windows, plus a trailing `[num_full_chunks * MAX_CHUNK_DURATION,
trimmed_duration)` window when the Python-`%` remainder is positive. -/
def fixed_grid_segments (mcd td : ℚ) : List Seg :=
  ((List.range (ratFloor (td / mcd)).toNat).map (gridSeg mcd)) ++
    (if 0 < td - mcd * (ratFloor (td / mcd) : ℚ) then
      [⟨"Speaker 1", (ratFloor (td / mcd) : ℚ) * mcd, td⟩] else [])

/-- Diarization-driven merging (source lines 1004-1024): starting from the
chunk `cur`, each next turn `s` extends the chunk's end to `s["end"]` when
`s["end"] - cur["start"] <= MAX_CHUNK_DURATION`, otherwise the chunk is
closed and a new one starts at `s`; the final open chunk is emitted.  The
chunk keeps the speaker of its first turn. -/
def combine_segments (maxDur : ℚ) (cur : Seg) : List Seg → List Seg
  | [] => [cur]
  | s :: ss =>
    if s.stop - cur.start ≤ maxDur then
      combine_segments maxDur ⟨cur.speaker, cur.start, s.stop⟩ ss
    else
      cur :: combine_segments maxDur s ss

/-- Diarization-mode planning over the remapped turn list (source lines
1001-1026): an empty turn list raises (`none`), otherwise the turns are
merged into chunks. -/
def plan_diarization (maxDur : ℚ) : List Seg → Option (List Seg)
  | [] => none
  | t :: ts => some (combine_segments maxDur t ts)

/-- The segments `segs` tile the half-open interval `[a, b)` exactly once:
each segment starts where the previous one stopped (first at `a`), is
nonempty, and the last stops at `b`.  This is the spec's "cover
`[0, total_duration)` exactly once, non-overlapping, ordered by start". -/
def chainFrom : ℚ → List Seg → ℚ → Prop
  | a, [], b => a = b
  | a, s :: ss, b => s.start = a ∧ a < s.stop ∧ chainFrom s.stop ss b

/-- Pointwise order between turns: both endpoints non-decreasing. -/
def segLE (a b : Seg) : Prop := a.start ≤ b.start ∧ a.stop ≤ b.stop

/-! ## Transcript renderer -/

/-- A transcribed segment as appended to `all_segments` (lines 1093-1098):
speaker, absolute timestamps (`start/end + start_sec`) and final text. -/
structure TSeg where
  speaker : String
  start : ℚ
  stop : ℚ
  text : String
deriving DecidableEq

/-- Decimal digit list of a natural number, with enough structural fuel to
cover every digit (`n` has at most `n + 1` digits). -/
def natCharsAux : Nat → Nat → List Char
  | 0, _ => []
  | fuel + 1, n =>
    if n < 10 then [digitC n]
    else natCharsAux fuel (n / 10) ++ [digitC (n % 10)]

/-- Decimal digit list of a natural number. -/
def natChars (n : Nat) : List Char := natCharsAux (n + 1) n

/-- Decimal rendering of a natural number, as in a Python f-string. -/
def natStr (n : Nat) : String := String.mk (natChars n)

/-- Python f-string `{n:0w}`: decimal rendering zero-padded to total width
`w`, the sign counting toward the width. -/
def zfill (w : Nat) (n : ℤ) : List Char :=
  if n < 0 then
    '-' :: (List.replicate (w - 1 - (natChars n.natAbs).length) '0' ++ natChars n.natAbs)
  else List.replicate (w - (natChars n.toNat).length) '0' ++ natChars n.toNat

/-- Python float `%`: `a % b = a - b * (a // b)` with floor division. -/
def pyMod (a b : ℚ) : ℚ := a - b * (ratFloor (a / b) : ℚ)

/-- Embedding of `format_timestamp` (source lines 1179-1184):
`hours = int(seconds // 3600)`, `minutes = int((seconds % 3600) // 60)`,
`secs = int(seconds % 60)`, `millis = int((seconds - int(seconds)) * 1000)`,
rendered as `f"{hours:02}:{minutes:02}:{secs:02},{millis:03}"`. -/
def format_timestamp (q : ℚ) : String :=
  String.mk (zfill 2 (ratFloor (q / 3600)) ++ ':' ::
    (zfill 2 (ratFloor (pyMod q 3600 / 60)) ++ ':' ::
      (zfill 2 (pyInt (pyMod q 60)) ++ ',' ::
        zfill 3 (pyInt ((q - (pyInt q : ℚ)) * 1000)))))

/-- Python whitespace, the set stripped by `str.strip()`. -/
def isPySpace (c : Char) : Bool :=
  c == ' ' || c == '\t' || c == '\n' || c == '\r' || c == '\x0b' || c == '\x0c'

/-- Python `str.strip()`: drop whitespace from both ends. -/
def pyStrip (s : String) : String :=
  String.mk (((s.data.dropWhile isPySpace).reverse.dropWhile isPySpace).reverse)

/-- One subtitle entry (lines 1148 and 1173): index line, timestamp line,
`speaker: text` line, each newline-terminated. -/
def srt_entry (i : Nat) (g : TSeg) : String :=
  natStr i ++ "\n" ++ format_timestamp g.start ++ " --> " ++ format_timestamp g.stop ++
    "\n" ++ g.speaker ++ ": " ++ pyStrip g.text ++ "\n"

/-- Python `enumerate(segments, start=i)`. -/
def enumIdx : Nat → List TSeg → List (Nat × TSeg)
  | _, [] => []
  | i, g :: gs => (i, g) :: enumIdx (i + 1) gs

/-- Python newline-join, `"\n".join(items)` (source line 1150). -/
def joinNL : List String → String
  | [] => ""
  | [a] => a
  | a :: rest => a ++ "\n" ++ joinNL rest

/-- Concatenation of a list of strings, as successive `file.write` calls
produce. -/
def concatAll : List String → String
  | [] => ""
  | a :: rest => a ++ concatAll rest

/-- Embedding of `generate_srt_text_with_speakers` (source lines
1141-1151): the displayed subtitle text, entries joined with `"\n"`. -/
def generate_srt_text_with_speakers (segs : List TSeg) : String :=
  joinNL ((enumIdx 1 segs).map (fun p => srt_entry p.1 p.2))

/-- The byte content written by `write_srt_file` (source lines 1165-1173):
for each segment the entry plus one extra newline, concatenated. -/
def write_srt_content (segs : List TSeg) : String :=
  concatAll ((enumIdx 1 segs).map (fun p => srt_entry p.1 p.2 ++ "\n"))

/-! ## Orchestrator -/

/-- One completed worker-pool future: the planned segment it belonged to,
and `none` when `future.result()` raised (caught at line 1099), otherwise
`some` of the returned text (possibly empty). -/
abbrev Completion := Seg × Option String

/-- The mutable loop state of `transcribe_file`'s `as_completed` loop:
the plain transcript accumulator, `all_segments`, and the stream of
progress events `(percent, status)` emitted so far. -/
structure LoopState where
  transcript : String
  all_segments : List TSeg
  events : List (ℤ × String)

/-- Progress value of line 1104: `int(20 + 80 * completed / total)`. -/
def progressVal (total completed : Nat) : ℤ :=
  pyInt ((20 : ℚ) + 80 * (completed : ℚ) / (total : ℚ))

/-- Status message of line 1105. -/
def progressMsg (total completed : Nat) : String :=
  "Transcribed " ++ natStr completed ++ " of " ++ natStr total ++ " segments..."

/-- Body of one iteration of the completion loop (lines 1087-1105): when
the task returned nonempty text, append the line and the `TranscribedSegment`
with absolute times; always emit a progress event computed from
`completed = len(all_segments)`. -/
def processCompletion (start_sec : ℚ) (total : Nat) (st : LoopState) (c : Completion) :
    LoopState :=
  let st1 : LoopState :=
    match c.2 with
    | some t =>
      if t = "" then st
      else
        { st with
          transcript := st.transcript ++ c.1.speaker ++ ": " ++ t ++ "\n"
          all_segments := st.all_segments ++
            [(⟨c.1.speaker, c.1.start + start_sec, c.1.stop + start_sec, t⟩ : TSeg)] }
    | none => st
  { st1 with
    events := st1.events ++
      [(progressVal total st1.all_segments.length,
        progressMsg total st1.all_segments.length)] }

/-- The `as_completed` loop (lines 1083-1105): before processing the `k`-th
completed task the stop flag is observed (line 1084); a set flag raises,
modelled by the `true` component, aborting the loop. -/
def segment_loop (start_sec : ℚ) (total : Nat) (stop : Nat → Bool) :
    Nat → LoopState → List Completion → LoopState × Bool
  | _, st, [] => (st, false)
  | k, st, c :: cs =>
    if stop k then (st, true)
    else segment_loop start_sec total stop (k + 1) (processCompletion start_sec total st c) cs

/-- Inputs of one run of `transcribe_file` from the planning step onward:
configuration, the stop-flag observations at each checkpoint, and the
sequence of task completions in the order `as_completed` yields them. -/
structure RunParams where
  diarEnabled : Bool
  srtRequested : Bool
  numWorkers : Nat
  start_sec : ℚ
  total : Nat
  stopAfterDiar : Bool
  stopBeforeLoop : Bool
  stopInLoop : Nat → Bool
  stopFinal : Bool
  completions : List Completion

/-- Observable outcome of a run: the progress events in order, and the
text handed to `display_transcription` (`none` when nothing is rendered). -/
structure RunOutcome where
  events : List (ℤ × String)
  displayed : Option String

/-- The terminal progress event of every stopped run (lines 1108/1125). -/
def stoppedEvent : ℤ × String := (0, "Transcription stopped.")

/-- Tail of `transcribe_file` after the completion loop (source lines
1107-1127): a raised stop (the loop's `true` component) or a stop flag
observed at line 1107 ends the run with the stopped event and nothing
rendered; otherwise progress reaches 100 and the SRT text or the stripped
plain transcript is displayed. -/
def run_after_loop (stopFinal srtRequested : Bool) (r : LoopState × Bool) : RunOutcome :=
  if r.2 then
    ⟨r.1.events ++ [stoppedEvent], none⟩
  else if stopFinal then
    ⟨r.1.events ++ [stoppedEvent], none⟩
  else
    ⟨r.1.events ++ [((100 : ℤ), "Transcription completed.")],
      some (if srtRequested then generate_srt_text_with_speakers r.1.all_segments
        else pyStrip r.1.transcript)⟩

/-- Embedding of `transcribe_file` from the planning milestone to the
render decision (source lines 978-1127), wired from the planning-phase
checkpoints through `segment_loop` into `run_after_loop`. -/
def transcribe_file_run (p : RunParams) : RunOutcome :=
  let ev0 : List (ℤ × String) :=
    [((10 : ℤ), if p.diarEnabled then ("Performing speaker diarization...")
      else ("Dividing audio into chunks..."))]
  if p.diarEnabled && p.stopAfterDiar then
    ⟨ev0 ++ [stoppedEvent], none⟩
  else if p.stopBeforeLoop then
    ⟨ev0 ++ [stoppedEvent], none⟩
  else
    let ev1 := ev0 ++ [((20 : ℤ),
      "Transcribing " ++ natStr p.total ++ " segments with " ++
        natStr p.numWorkers ++ " threads...")]
    run_after_loop p.stopFinal p.srtRequested
      (segment_loop p.start_sec p.total p.stopInLoop 0 ⟨"", [], ev1⟩ p.completions)

/-- The `TranscribedSegment` a completion contributes to `all_segments`
(`none` when the task raised or returned empty text). -/
def toTSeg (start_sec : ℚ) (c : Completion) : Option TSeg :=
  match c.2 with
  | some t =>
    if t = "" then none
    else some ⟨c.1.speaker, c.1.start + start_sec, c.1.stop + start_sec, t⟩
  | none => none

/-- Whether a completion is counted as completed work (appended). -/
def appendedB (c : Completion) : Bool :=
  match c.2 with
  | some t => !(t == "")
  | none => false

/-- The transcript line a completion contributes (`none` when none). -/
def transcriptLine (c : Completion) : Option String :=
  match c.2 with
  | some t => if t = "" then none else some (c.1.speaker ++ ": " ++ t ++ "\n")
  | none => none

/-! ## Segment transcriber effects and the model lock -/

/-- Environment of one `transcribe_segment` call (lines 1186-1229): the
stop flag at entry, whether slicing the trimmed audio succeeds, whether the
export to the temporary WAV succeeds, and the model's answer (`none` for a
raised inference error). -/
structure SegEnv where
  stopSet : Bool
  extractOk : Bool
  exportOk : Bool
  inferResult : Option String

/-- Effects of one `transcribe_segment` call: its return value (`none`
models the re-raised stop exception), whether the per-segment temporary
WAV file was created, and whether it was deleted before returning. -/
structure SegOutcome where
  result : Option String
  tempCreated : Bool
  tempDeleted : Bool

/-- Embedding of `transcribe_segment` (source lines 1186-1229): raise on a
set stop flag; return `""` on extraction failure (before the temp file
exists); `tempfile.NamedTemporaryFile(delete=False)` creates the file, and
on export failure the function returns `""` without deleting it; otherwise
the model runs and the `finally` block deletes the file whether inference
succeeded or raised, the text being `result.get("text", "").strip()` or
`""`. -/
def transcribe_segment (env : SegEnv) : SegOutcome :=
  if env.stopSet then ⟨none, false, false⟩
  else if !env.extractOk then ⟨some (""), false, false⟩
  else if !env.exportOk then ⟨some (""), true, false⟩
  else
    match env.inferResult with
    | some t => ⟨some (pyStrip t), true, true⟩
    | none => ⟨some (""), true, true⟩

/-- State of the worker pool: each thread's program counter in
`transcribe_segment` (0 stop-check, 1 extract, 2 export, 3 waiting on
`model_lock`, 4 inside `model.transcribe`, 5 about to leave the `with`
block, 6 temp-file cleanup, 7 returned) and the holder of the single
global `model_lock`. -/
structure PoolState where
  pc : Nat → Nat
  lock : Option Nat

/-- All threads at the entry check, lock free. -/
def initPool : PoolState := ⟨fun _ => 0, none⟩

/-- Interleaving semantics of the workers of `transcribe_file`'s thread
pool executing `transcribe_segment`: any thread may take its next step at
any time; `acquire` is enabled only when the lock is free, and leaving the
`with self.model_lock` block releases it; failure branches jump to the
return point. -/
inductive PoolStep : PoolState → PoolState → Prop where
  | check_pass (s : PoolState) (t : Nat) : s.pc t = 0 →
      PoolStep s ⟨Function.update s.pc t 1, s.lock⟩
  | check_stop (s : PoolState) (t : Nat) : s.pc t = 0 →
      PoolStep s ⟨Function.update s.pc t 7, s.lock⟩
  | extract_ok (s : PoolState) (t : Nat) : s.pc t = 1 →
      PoolStep s ⟨Function.update s.pc t 2, s.lock⟩
  | extract_fail (s : PoolState) (t : Nat) : s.pc t = 1 →
      PoolStep s ⟨Function.update s.pc t 7, s.lock⟩
  | export_ok (s : PoolState) (t : Nat) : s.pc t = 2 →
      PoolStep s ⟨Function.update s.pc t 3, s.lock⟩
  | export_fail (s : PoolState) (t : Nat) : s.pc t = 2 →
      PoolStep s ⟨Function.update s.pc t 7, s.lock⟩
  | acquire (s : PoolState) (t : Nat) : s.pc t = 3 → s.lock = none →
      PoolStep s ⟨Function.update s.pc t 4, some t⟩
  | infer (s : PoolState) (t : Nat) : s.pc t = 4 →
      PoolStep s ⟨Function.update s.pc t 5, s.lock⟩
  | release (s : PoolState) (t : Nat) : s.pc t = 5 →
      PoolStep s ⟨Function.update s.pc t 6, none⟩
  | cleanup (s : PoolState) (t : Nat) : s.pc t = 6 →
      PoolStep s ⟨Function.update s.pc t 7, s.lock⟩

/-- States reachable by any interleaving of worker steps. -/
def PoolReachable (s : PoolState) : Prop :=
  Relation.ReflTransGen PoolStep initPool s

end SoftWhisper

namespace SoftWhisper

/-! ## Lemmas about digit characters -/

theorem digitC_toNat {d : Nat} (hd : d < 10) : (digitC d).toNat = 48 + d := by
  interval_cases d <;> decide

theorem isDig_digitC {d : Nat} (hd : d < 10) : isDig (digitC d) = true := by
  interval_cases d <;> decide

theorem isLowDig_digitC {d : Nat} (hd : d ≤ 5) : isLowDig (digitC d) = true := by
  interval_cases d <;> decide

theorem digitC_ne_colon {d : Nat} (hd : d < 10) : ¬(digitC d = ':') := by
  interval_cases d <;> decide

theorem digitC_ne_nl {d : Nat} (hd : d < 10) : ¬(digitC d = '\n') := by
  interval_cases d <;> decide

theorem dv_digitC {d : Nat} (hd : d < 10) : dv (digitC d) = d := by
  interval_cases d <;> decide

/-- Evaluation of the embedded regex on a canonical two-digit rendering. -/
theorem parse_time_timeStr {h m s : Nat} (hh : h < 100) (hm : m < 60) (hs : s < 60) :
    parse_time (timeStr h m s) = some (h * 3600 + m * 60 + s) := by
  have hh1 : h / 10 < 10 := by omega
  have hh2 : h % 10 < 10 := by omega
  have hm1 : m / 10 ≤ 5 := by omega
  have hm1' : m / 10 < 10 := by omega
  have hm2 : m % 10 < 10 := by omega
  have hs1 : s / 10 ≤ 5 := by omega
  have hs1' : s / 10 < 10 := by omega
  have hs2 : s % 10 < 10 := by omega
  show parseChars (pad2L h ++ ':' :: (pad2L m ++ ':' :: pad2L s)) = _
  rw [parseChars, stripNL]
  rw [if_neg (by simp [pad2L, List.getLast?, digitC_ne_nl hs2])]
  simp only [pad2L, List.cons_append, List.nil_append]
  rw [splitCols, if_neg (digitC_ne_colon hh1)]
  rw [splitCols, if_neg (digitC_ne_colon hh2)]
  rw [splitCols, if_pos rfl]
  rw [splitCols, if_neg (digitC_ne_colon hm1')]
  rw [splitCols, if_neg (digitC_ne_colon hm2)]
  rw [splitCols, if_pos rfl]
  rw [splitCols, if_neg (digitC_ne_colon hs1')]
  rw [splitCols, if_neg (digitC_ne_colon hs2)]
  rw [splitCols]
  simp only [matchHH, matchMS,
    isDig_digitC hh1, isDig_digitC hh2, isDig_digitC hm2, isDig_digitC hs2,
    isLowDig_digitC hm1, isLowDig_digitC hs1,
    dv_digitC hh1, dv_digitC hh2, dv_digitC hm1', dv_digitC hm2,
    dv_digitC hs1', dv_digitC hs2, Bool.and_self, if_true]
  have : 10 * (h / 10) + h % 10 = h := by omega
  rw [this]
  have : 10 * (m / 10) + m % 10 = m := by omega
  rw [this]
  have : 10 * (s / 10) + s % 10 = s := by omega
  rw [this]

/-- C6 counterexample: the source regex `[0-5]?\d` also accepts single-digit
minute and second fields, so `"1:2:3"` parses successfully (to 3723) even
though it is not of the claimed `H:MM:SS` / `HH:MM:SS` shape; the claim
that `parse_time` fails on every string outside that shape is false. -/
theorem c6_counterexample_single_digit_fields :
    parse_time ("1:2:3") = some 3723 ∧ spec_time_shape ("1:2:3") = false := by
  constructor <;> decide

/-- C6 (amended): `parse_time` accepts one- or two-digit fields, namely
`(\d{1,2}):([0-5]?\d):([0-5]?\d)` with an optional single trailing newline,
returning `hours*3600 + minutes*60 + seconds`; in particular every
`HH:MM:SS` string with minutes and seconds in `[0,59]` is accepted with that
value, `parse_time("01:02:03") = 3723`, single-digit fields such as
`"1:2:3"` are also accepted, a trailing newline is tolerated, and
`"99:99:99"`, negative, fractional or otherwise-shaped strings are
rejected. -/
theorem c6_parse_time_amended :
    (∀ h m s : Nat, h < 100 → m < 60 → s < 60 →
      parse_time (timeStr h m s) = some (h * 3600 + m * 60 + s)) ∧
    parse_time ("01:02:03") = some 3723 ∧
    parse_time ("1:2:3") = some 3723 ∧
    parse_time ("01:02:03\n") = some 3723 ∧
    parse_time ("99:99:99") = none ∧
    parse_time ("-1:02:03") = none ∧
    parse_time ("01:02:03.5") = none ∧
    parse_time ("01:02") = none ∧
    parse_time ("") = none := by
  refine ⟨fun h m s hh hm hs => parse_time_timeStr hh hm hs, ?_, ?_, ?_, ?_, ?_, ?_, ?_, ?_⟩ <;>
    decide

/-- C6 witness: the general acceptance statement of the amended theorem,
instantiated at `02:03:04`. -/
theorem c6_parse_time_amended_witness :
    parse_time (timeStr 2 3 4) = some (2 * 3600 + 3 * 60 + 4) :=
  c6_parse_time_amended.1 2 3 4 (by decide) (by decide) (by decide)

/-! ## Planner lemmas -/

theorem ratFloor_eq (q : ℚ) : ratFloor q = ⌊q⌋ := by
  rw [ratFloor, Rat.floor_def]

/-- Evaluation rule for `ratFloor` by bracketing the argument. -/
theorem ratFloor_eval {q : ℚ} {z : ℤ} (h1 : (z : ℚ) ≤ q) (h2 : q < z + 1) :
    ratFloor q = z := by
  rw [ratFloor_eq]
  exact Int.floor_eq_iff.mpr ⟨h1, h2⟩

/-- Evaluation rule for `pyInt` on nonnegative arguments. -/
theorem pyInt_eval {q : ℚ} {z : ℤ} (h0 : 0 ≤ q) (h1 : (z : ℚ) ≤ q) (h2 : q < z + 1) :
    pyInt q = z := by
  rw [pyInt, if_pos h0]
  exact ratFloor_eval h1 h2

/-- A block of `k` consecutive grid windows starting at window index `j`
chains from `j * d` to `(j + k) * d`, and on to whatever `rest` chains. -/
theorem chainFrom_grid (d : ℚ) (hd : 0 < d) :
    ∀ (k j : Nat) (rest : List Seg) (b : ℚ),
      chainFrom (((j + k : Nat) : ℚ) * d) rest b →
      chainFrom ((j : ℚ) * d) (((List.range k).map (fun i => gridSeg d (j + i))) ++ rest) b := by
  intro k
  induction k with
  | zero =>
    intro j rest b h
    simpa using h
  | succ k ih =>
    intro j rest b h
    rw [List.range_succ_eq_map, List.map_cons, List.map_map, List.cons_append]
    have hmap : (List.range k).map ((fun i => gridSeg d (j + i)) ∘ Nat.succ) =
        (List.range k).map (fun i => gridSeg d ((j + 1) + i)) := by
      refine List.map_congr_left (fun i _ => ?_)
      have hji : j + Nat.succ i = (j + 1) + i := by omega
      simp [Function.comp, hji]
    rw [hmap]
    refine ⟨by simp [gridSeg], ?_, ?_⟩
    · show (j : ℚ) * d < (gridSeg d (j + 0)).stop
      simp only [gridSeg, Nat.add_zero]
      exact mul_lt_mul_of_pos_right (lt_add_one _) hd
    · show chainFrom (gridSeg d (j + 0)).stop _ b
      have h' : chainFrom ((((j + 1) + k : Nat) : ℚ) * d) rest b := by
        have hjk : (j + 1) + k = j + (k + 1) := by omega
        rw [hjk]; exact h
      have := ih (j + 1) rest b h'
      simp only [gridSeg, Nat.add_zero]
      have hc : (((j + 1 : Nat)) : ℚ) = (j : ℚ) + 1 := by push_cast; ring
      rw [← hc]
      exact this

/-- Fixed-grid planning tiles `[0, trimmed_duration)` exactly once. -/
theorem fixed_grid_chainFrom (td mcd : ℚ) (htd : 0 < td) (hm : 0 < mcd) :
    chainFrom 0 (fixed_grid_segments mcd td) td := by
  have hn0 : 0 ≤ ratFloor (td / mcd) := by
    rw [ratFloor_eq]
    exact Int.floor_nonneg.mpr (le_of_lt (div_pos htd hm))
  set n : ℤ := ratFloor (td / mcd) with hn
  have hcast : (((n.toNat : Nat)) : ℚ) = ((n : ℤ) : ℚ) := by
    exact_mod_cast congrArg (fun z : ℤ => (z : ℚ)) (Int.toNat_of_nonneg hn0)
  have hle : ((n : ℤ) : ℚ) * mcd ≤ td := by
    have h1 : ((n : ℤ) : ℚ) ≤ td / mcd := by
      rw [hn, ratFloor_eq]; exact Int.floor_le _
    calc ((n : ℤ) : ℚ) * mcd ≤ (td / mcd) * mcd :=
          mul_le_mul_of_nonneg_right h1 (le_of_lt hm)
      _ = td := div_mul_cancel₀ td (ne_of_gt hm)
  have hlt : td < (((n : ℤ) : ℚ) + 1) * mcd := by
    have h2 : td / mcd < ((n : ℤ) : ℚ) + 1 := by
      rw [hn, ratFloor_eq]; exact Int.lt_floor_add_one _
    calc td = (td / mcd) * mcd := (div_mul_cancel₀ td (ne_of_gt hm)).symm
      _ < (((n : ℤ) : ℚ) + 1) * mcd := mul_lt_mul_of_pos_right h2 hm
  rw [fixed_grid_segments, ← hn]
  by_cases hr : 0 < td - mcd * ((n : ℤ) : ℚ)
  · rw [if_pos hr]
    have hrest : chainFrom (((0 + n.toNat : Nat) : ℚ) * mcd)
        [⟨"Speaker 1", ((n : ℤ) : ℚ) * mcd, td⟩] td := by
      refine ⟨?_, ?_, rfl⟩
      · show ((n : ℤ) : ℚ) * mcd = _
        rw [Nat.zero_add, hcast]
      · show ((0 + n.toNat : Nat) : ℚ) * mcd < td
        rw [Nat.zero_add, hcast]
        have := sub_pos.mp hr
        linarith [mul_comm mcd ((n : ℤ) : ℚ)]
    have := chainFrom_grid mcd hm n.toNat 0
      [⟨"Speaker 1", ((n : ℤ) : ℚ) * mcd, td⟩] td hrest
    simpa using this
  · rw [if_neg hr]
    have heq : ((n : ℤ) : ℚ) * mcd = td := by
      have h3 : td - mcd * ((n : ℤ) : ℚ) ≤ 0 := not_lt.mp hr
      have h4 : td ≤ ((n : ℤ) : ℚ) * mcd := by linarith [mul_comm mcd ((n : ℤ) : ℚ)]
      exact le_antisymm hle h4
    have hrest : chainFrom (((0 + n.toNat : Nat) : ℚ) * mcd) [] td := by
      show ((0 + n.toNat : Nat) : ℚ) * mcd = td
      rw [Nat.zero_add, hcast, heq]
    have := chainFrom_grid mcd hm n.toNat 0 [] td hrest
    simpa using this

/-- The merged chunk list is nonempty and its first chunk keeps the first
turn's speaker and start. -/
theorem combine_segments_head (m : ℚ) :
    ∀ (ts : List Seg) (cur : Seg),
      ∃ c tl, combine_segments m cur ts = c :: tl ∧
        c.speaker = cur.speaker ∧ c.start = cur.start := by
  intro ts
  induction ts with
  | nil => intro cur; exact ⟨cur, [], rfl, rfl, rfl⟩
  | cons s ss ih =>
    intro cur
    simp only [combine_segments]
    by_cases h : s.stop - cur.start ≤ m
    · rw [if_pos h]
      obtain ⟨c, tl, he, hsp, hst⟩ := ih ⟨cur.speaker, cur.start, s.stop⟩
      exact ⟨c, tl, he, hsp, hst⟩
    · rw [if_neg h]
      exact ⟨cur, _, rfl, rfl, rfl⟩

/-- When the turns are sorted in both endpoints, merging covers the current
chunk's span and every remaining turn's span. -/
theorem combine_segments_covers (m : ℚ) :
    ∀ (ts : List Seg) (cur : Seg),
      (∀ u ∈ ts, segLE cur u) → List.Pairwise segLE ts →
      (∃ c ∈ combine_segments m cur ts, c.start ≤ cur.start ∧ cur.stop ≤ c.stop) ∧
      (∀ u ∈ ts, ∃ c ∈ combine_segments m cur ts, c.start ≤ u.start ∧ u.stop ≤ c.stop) := by
  intro ts
  induction ts with
  | nil =>
    intro cur _ _
    refine ⟨⟨cur, ?_, le_refl _, le_refl _⟩, by simp⟩
    simp [combine_segments]
  | cons s ss ih =>
    intro cur hcur hpair
    have hcs : segLE cur s := hcur s (List.mem_cons_self _ _)
    have hcss : ∀ u ∈ ss, segLE cur u := fun u hu => hcur u (List.mem_cons_of_mem _ hu)
    obtain ⟨hs_ss, hpss⟩ := List.pairwise_cons.mp hpair
    simp only [combine_segments]
    by_cases h : s.stop - cur.start ≤ m
    · rw [if_pos h]
      have hinv : ∀ u ∈ ss, segLE (⟨cur.speaker, cur.start, s.stop⟩ : Seg) u :=
        fun u hu => ⟨(hcss u hu).1, (hs_ss u hu).2⟩
      obtain ⟨⟨c, hcmem, hc1, hc2⟩, hall⟩ := ih ⟨cur.speaker, cur.start, s.stop⟩ hinv hpss
      refine ⟨⟨c, hcmem, hc1, le_trans hcs.2 hc2⟩, ?_⟩
      intro u hu
      rcases List.mem_cons.mp hu with rfl | hu
      · exact ⟨c, hcmem, le_trans hc1 hcs.1, hc2⟩
      · exact hall u hu
    · rw [if_neg h]
      obtain ⟨⟨c, hcmem, hc1, hc2⟩, hall⟩ := ih s hs_ss hpss
      refine ⟨⟨cur, List.mem_cons_self _ _, le_refl _, le_refl _⟩, ?_⟩
      intro u hu
      rcases List.mem_cons.mp hu with rfl | hu
      · exact ⟨c, List.mem_cons_of_mem _ hcmem, hc1, hc2⟩
      · obtain ⟨c', hc'm, h1, h2⟩ := hall u hu
        exact ⟨c', List.mem_cons_of_mem _ hc'm, h1, h2⟩

/-- Every produced chunk either coincides with one input turn's span or
obeys the duration cap. -/
theorem combine_segments_cap (m : ℚ) :
    ∀ (ts : List Seg) (cur c : Seg),
      c ∈ combine_segments m cur ts →
      (∃ u ∈ cur :: ts, c.start = u.start ∧ c.stop = u.stop) ∨ c.stop - c.start ≤ m := by
  intro ts
  induction ts with
  | nil =>
    intro cur c hc
    simp only [combine_segments, List.mem_singleton] at hc
    subst hc
    exact Or.inl ⟨c, List.mem_cons_self _ _, rfl, rfl⟩
  | cons s ss ih =>
    intro cur c hc
    simp only [combine_segments] at hc
    by_cases h : s.stop - cur.start ≤ m
    · rw [if_pos h] at hc
      rcases ih _ c hc with ⟨u, hu, h1, h2⟩ | hle
      · rcases List.mem_cons.mp hu with rfl | hu
        · refine Or.inr ?_
          rw [h1, h2]
          simpa using h
        · exact Or.inl ⟨u, List.mem_cons_of_mem _ (List.mem_cons_of_mem _ hu), h1, h2⟩
      · exact Or.inr hle
    · rw [if_neg h] at hc
      rcases List.mem_cons.mp hc with rfl | hc
      · exact Or.inl ⟨c, List.mem_cons_self _ _, rfl, rfl⟩
      · rcases ih s c hc with ⟨u, hu, h1, h2⟩ | hle
        · exact Or.inl ⟨u, List.mem_cons_of_mem _ hu, h1, h2⟩
        · exact Or.inr hle

/-! ## Claims C3, C4, C5 -/

/-- C5: for every positive duration and chunk cap, fixed-grid planning
tiles `[0, total_duration)` exactly once — consecutive windows of
`max_chunk_duration` plus a shorter positive remainder window, the last
segment ending at `total_duration` — and a 125-second input with a
60-second cap yields exactly the segments `[0,60) [60,120) [120,125)`. -/
theorem c5_fixed_grid_tiles :
    (∀ td mcd : ℚ, 0 < td → 0 < mcd → chainFrom 0 (fixed_grid_segments mcd td) td) ∧
    fixed_grid_segments 60 125 =
      [⟨"Speaker 1", 0, 60⟩, ⟨"Speaker 1", 60, 120⟩, ⟨"Speaker 1", 120, 125⟩] := by
  constructor
  · exact fun td mcd htd hm => fixed_grid_chainFrom td mcd htd hm
  · have hfl : ratFloor ((125 : ℚ) / 60) = 2 := by
      rw [ratFloor_eq, Int.floor_eq_iff]
      constructor <;> norm_num
    rw [fixed_grid_segments, hfl]
    rw [if_pos (by norm_num), show (2 : ℤ).toNat = 2 from rfl]
    norm_num [List.range_succ, gridSeg]

/-- C5 witness: the tiling statement instantiated at a 7-second input with
a 3-second cap. -/
theorem c5_fixed_grid_tiles_witness :
    chainFrom 0 (fixed_grid_segments 3 7) 7 :=
  c5_fixed_grid_tiles.1 7 3 (by norm_num) (by norm_num)

/-- C3 counterexample: with a single diarization turn `[5, 10]` in a
20-second trimmed audio, diarization-driven merging returns the single
chunk `[5, 10)`, which does not cover `[0, 20)` — it neither starts at 0
nor ends at 20 — so the claim that *both* planning modes cover
`[0, total_duration)` exactly once is false. -/
theorem c3_counterexample_diarization_gap :
    plan_diarization 60 [⟨"Speaker 1", 5, 10⟩] = some [⟨"Speaker 1", 5, 10⟩] ∧
    ¬chainFrom 0 [⟨"Speaker 1", 5, 10⟩] 20 := by
  constructor
  · rfl
  · intro hch
    have h5 : (5 : ℚ) = 0 := hch.1
    norm_num at h5

/-- C3 (amended): fixed-grid planning covers `[0, total_duration)` exactly
once (no gap, no overlap, ordered by start); diarization-driven merging
instead emits a nonempty chunk list whose first chunk begins at the first
turn's start, so it covers `[0, total_duration)` only when the turns
themselves do. -/
theorem c3_amended_coverage :
    (∀ td mcd : ℚ, 0 < td → 0 < mcd → chainFrom 0 (fixed_grid_segments mcd td) td) ∧
    (∀ (m : ℚ) (t : Seg) (ts : List Seg),
      ∃ c tl, combine_segments m t ts = c :: tl ∧
        c.speaker = t.speaker ∧ c.start = t.start) := by
  exact ⟨fun td mcd htd hm => fixed_grid_chainFrom td mcd htd hm,
    fun m t ts => combine_segments_head m ts t⟩

/-- C3 witness: the fixed-grid coverage statement instantiated at a
20-second input with a 60-second cap (a single sub-cap window). -/
theorem c3_amended_coverage_witness :
    chainFrom 0 (fixed_grid_segments 60 20) 20 :=
  c3_amended_coverage.1 20 60 (by norm_num) (by norm_num)

/-- C4 counterexample: the start-ordered turns `[0,50], [10,20]` (second
turn nested, ending earlier) merge under cap 60 into the single chunk
`[0, 20)`: extending the chunk's end to the *later turn's* end shrinks it,
so the instant 30 of the first turn `[0, 50)` is covered by no chunk and
the union of the chunks fails to cover the turns' envelope. -/
theorem c4_counterexample_shrinking_merge :
    combine_segments 60 ⟨"A", 0, 50⟩ [⟨"B", 10, 20⟩] = [⟨"A", 0, 20⟩] ∧
    (0 : ℚ) ≤ 10 ∧
    ((0 : ℚ) ≤ 30 ∧ (30 : ℚ) < 50) ∧
    (∀ c ∈ combine_segments 60 ⟨"A", 0, 50⟩ [⟨"B", 10, 20⟩],
      ¬(c.start ≤ 30 ∧ (30 : ℚ) < c.stop)) := by
  have hco : combine_segments 60 (⟨"A", 0, 50⟩ : Seg) [⟨"B", 10, 20⟩] = [⟨"A", 0, 20⟩] := by
    simp only [combine_segments]
    rw [if_pos (by norm_num)]
  refine ⟨hco, by norm_num, ⟨by norm_num, by norm_num⟩, ?_⟩
  rw [hco]
  intro c hc
  rcases List.mem_singleton.mp hc with rfl
  intro hin
  have := hin.2
  norm_num at this

/-- C4 (amended): for turn sequences sorted in both start and end times,
the union of the merged chunks covers every input turn's `[start, end)`
span, and every chunk that is not identical to a single input turn's span
(i.e. every chunk that actually merged at least two turns) has duration at
most `max_chunk_duration`; a chunk equal to one oversized turn may exceed
the cap.  (The counterexample forces the end-monotonicity hypothesis: with
start-ordering alone, merging a nested turn shrinks the chunk and coverage
fails.) -/
theorem c4_amended_envelope_and_cap (m : ℚ) (t : Seg) (ts : List Seg)
    (hsort : List.Pairwise segLE (t :: ts)) :
    (∀ u ∈ t :: ts, ∃ c ∈ combine_segments m t ts,
      c.start ≤ u.start ∧ u.stop ≤ c.stop) ∧
    (∀ c ∈ combine_segments m t ts,
      (∃ u ∈ t :: ts, c.start = u.start ∧ c.stop = u.stop) ∨ c.stop - c.start ≤ m) := by
  obtain ⟨ht_ts, hpts⟩ := List.pairwise_cons.mp hsort
  obtain ⟨⟨c, hcmem, hc1, hc2⟩, hall⟩ := combine_segments_covers m ts t ht_ts hpts
  constructor
  · intro u hu
    rcases List.mem_cons.mp hu with rfl | hu
    · exact ⟨c, hcmem, hc1, hc2⟩
    · exact hall u hu
  · exact fun c hc => combine_segments_cap m ts t c hc

/-- C4 witness: the amended statement at the sorted turns
`[0,10], [20,30]` with cap 60. -/
theorem c4_amended_envelope_and_cap_witness :
    (∀ u ∈ [(⟨"A", 0, 10⟩ : Seg), ⟨"B", 20, 30⟩],
      ∃ c ∈ combine_segments 60 ⟨"A", 0, 10⟩ [⟨"B", 20, 30⟩],
        c.start ≤ u.start ∧ u.stop ≤ c.stop) ∧
    (∀ c ∈ combine_segments 60 ⟨"A", 0, 10⟩ [⟨"B", 20, 30⟩],
      (∃ u ∈ [(⟨"A", 0, 10⟩ : Seg), ⟨"B", 20, 30⟩],
        c.start = u.start ∧ c.stop = u.stop) ∨ c.stop - c.start ≤ 60) :=
  c4_amended_envelope_and_cap 60 ⟨"A", 0, 10⟩ [⟨"B", 20, 30⟩]
    (by
      refine List.pairwise_cons.mpr ⟨?_, List.pairwise_singleton _ _⟩
      intro u hu
      rcases List.mem_singleton.mp hu with rfl
      exact ⟨by norm_num, by norm_num⟩)

/-! ## Renderer lemmas and claim C7 -/

/-- Writing each item followed by a newline produces the newline-joined
items plus one final newline (when there is any item at all). -/
theorem concatAll_map_newline :
    ∀ es : List String,
      concatAll (es.map (fun e => e ++ "\n")) =
        if es.isEmpty then ("") else joinNL es ++ "\n" := by
  intro es
  induction es with
  | nil => simp [concatAll]
  | cons a rest ih =>
    cases rest with
    | nil => simp [concatAll, joinNL]
    | cons b rest' =>
      simp only [List.map_cons, concatAll, joinNL] at ih ⊢
      rw [ih]
      simp [String.append_assoc]

/-- C7 (amended): the subtitle *file* content is the concatenation over
segments of the four-line entry `i\n<start> --> <end>\n<speaker>: <text>\n\n`;
the *displayed* subtitle string joins the entries with single newlines and
therefore equals the file content with its final newline removed — for a
nonempty segment list the two strings differ by exactly that one trailing
newline, and only for an empty list are they byte-for-byte equal. -/
theorem c7_srt_display_vs_file (segs : List TSeg) :
    write_srt_content segs =
      (if segs.isEmpty then ("") else generate_srt_text_with_speakers segs ++ "\n") := by
  rw [write_srt_content, generate_srt_text_with_speakers]
  have hmap : (enumIdx 1 segs).map (fun p => srt_entry p.1 p.2 ++ "\n") =
      ((enumIdx 1 segs).map (fun p => srt_entry p.1 p.2)).map (fun e => e ++ "\n") := by
    rw [List.map_map]
    rfl
  rw [hmap, concatAll_map_newline]
  have hemp : ((enumIdx 1 segs).map (fun p => srt_entry p.1 p.2)).isEmpty = segs.isEmpty := by
    cases segs <;> simp [enumIdx]
  rw [hemp]

/-- C7 counterexample: for a single transcribed segment the displayed
subtitle string and the bytes written to the `.srt` file are not equal —
the file carries one more newline — so the claim that the display string
equals the written string byte-for-byte is false. -/
theorem c7_counterexample_trailing_newline :
    generate_srt_text_with_speakers [⟨"Speaker 1", 0, 0, "hi"⟩] ≠
      write_srt_content [⟨"Speaker 1", 0, 0, "hi"⟩] := by
  have hg : generate_srt_text_with_speakers [⟨"Speaker 1", 0, 0, "hi"⟩] =
      srt_entry 1 ⟨"Speaker 1", 0, 0, "hi"⟩ := rfl
  have hw : write_srt_content [⟨"Speaker 1", 0, 0, "hi"⟩] =
      (srt_entry 1 ⟨"Speaker 1", 0, 0, "hi"⟩ ++ "\n") ++ "" := rfl
  rw [hg, hw]
  intro h
  have hlen := congrArg String.length h
  simp only [String.length_append] at hlen
  have h1 : ("\n" : String).length = 1 := rfl
  have h0 : ("" : String).length = 0 := rfl
  omega

/-! ## Orchestrator loop lemmas -/

/-- With the stop flag never set, the completion loop finishes without
raising. -/
theorem segment_loop_no_stop (ss : ℚ) (total : Nat) :
    ∀ (cs : List Completion) (k : Nat) (st : LoopState),
      (segment_loop ss total (fun _ => false) k st cs).2 = false := by
  intro cs
  induction cs with
  | nil => intro k st; rfl
  | cons c cs ih =>
    intro k st
    simp only [segment_loop, if_neg (Bool.false_ne_true)]
    exact ih (k + 1) _

/-- The accumulator and transcript built by an unstopped loop: results are
appended in completion order, one entry per completion with nonempty text. -/
theorem segment_loop_append (ss : ℚ) (total : Nat) :
    ∀ (cs : List Completion) (k : Nat) (st : LoopState),
      (segment_loop ss total (fun _ => false) k st cs).1.all_segments =
        st.all_segments ++ cs.filterMap (toTSeg ss) ∧
      (segment_loop ss total (fun _ => false) k st cs).1.transcript =
        st.transcript ++ concatAll (cs.filterMap transcriptLine) := by
  intro cs
  induction cs with
  | nil => intro k st; simp [segment_loop, concatAll]
  | cons c cs ih =>
    intro k st
    simp only [segment_loop, if_neg (Bool.false_ne_true)]
    obtain ⟨ha, ht⟩ := ih (k + 1) (processCompletion ss total st c)
    obtain ⟨seg, res⟩ := c
    cases res with
    | none =>
      refine ⟨?_, ?_⟩
      · rw [ha]; simp [processCompletion, toTSeg]
      · rw [ht]; simp [processCompletion, transcriptLine]
    | some t =>
      by_cases hte : t = ""
      · subst hte
        refine ⟨?_, ?_⟩
        · rw [ha]; simp [processCompletion, toTSeg]
        · rw [ht]; simp [processCompletion, transcriptLine]
      · refine ⟨?_, ?_⟩
        · rw [ha]
          simp [processCompletion, toTSeg, hte, List.append_assoc]
        · rw [ht]
          simp [processCompletion, transcriptLine, hte, concatAll, String.append_assoc]

/-- The number of appended results after processing one completion. -/
theorem processCompletion_length (ss : ℚ) (total : Nat) (st : LoopState) (c : Completion) :
    (processCompletion ss total st c).all_segments.length =
      st.all_segments.length + (if appendedB c then 1 else 0) := by
  obtain ⟨seg, res⟩ := c
  cases res with
  | none => simp [processCompletion, appendedB]
  | some t =>
    by_cases hte : t = ""
    · subst hte; simp [processCompletion, appendedB]
    · simp [processCompletion, appendedB, hte]

/-- The event emitted while processing one completion. -/
theorem processCompletion_events (ss : ℚ) (total : Nat) (st : LoopState) (c : Completion) :
    (processCompletion ss total st c).events =
      st.events ++
        [(progressVal total (st.all_segments.length + (if appendedB c then 1 else 0)),
          progressMsg total (st.all_segments.length + (if appendedB c then 1 else 0)))] := by
  obtain ⟨seg, res⟩ := c
  cases res with
  | none => simp [processCompletion, appendedB]
  | some t =>
    by_cases hte : t = ""
    · subst hte; simp [processCompletion, appendedB]
    · simp [processCompletion, appendedB, hte]

/-- The events of an unstopped loop: after the `j`-th completion the
emitted percentage is computed from the number of *appended* results among
the first `j + 1` completions. -/
theorem segment_loop_events (ss : ℚ) (total : Nat) :
    ∀ (cs : List Completion) (k : Nat) (st : LoopState),
      (segment_loop ss total (fun _ => false) k st cs).1.events =
        st.events ++ (List.range cs.length).map (fun j =>
          (progressVal total
            (st.all_segments.length + (cs.take (j + 1)).countP appendedB),
           progressMsg total
            (st.all_segments.length + (cs.take (j + 1)).countP appendedB))) := by
  intro cs
  induction cs with
  | nil => intro k st; simp [segment_loop]
  | cons c cs ih =>
    intro k st
    simp only [segment_loop, if_neg (Bool.false_ne_true)]
    rw [ih (k + 1) (processCompletion ss total st c)]
    rw [processCompletion_events, List.append_assoc]
    congr 1
    simp only [List.length_cons, List.range_succ_eq_map, List.map_cons, List.map_map,
      List.singleton_append]
    congr 1
    · have h1 : (List.take 1 (c :: cs)).countP appendedB = (if appendedB c then 1 else 0) := by
        simp [List.countP_cons]
      rw [h1]
    · refine List.map_congr_left (fun j _ => ?_)
      simp only [Function.comp_apply]
      have h2 : List.countP appendedB (List.take (1 + (j + 1)) (c :: cs)) =
          List.countP appendedB (List.take (j + 1) cs) + (if appendedB c then 1 else 0) := by
        rw [show 1 + (j + 1) = (j + 1) + 1 from by omega, List.take_succ_cons,
          List.countP_cons]
      have h3 : (processCompletion ss total st c).all_segments.length +
            List.countP appendedB (List.take (j + 1) cs) =
          st.all_segments.length + List.countP appendedB (List.take (1 + (j + 1)) (c :: cs)) := by
        rw [processCompletion_length, h2]
        omega
      rw [h3, show 1 + (j + 1) = j.succ + 1 from by omega]

/-- Equation form of `segment_loop_append`, accumulator component. -/
theorem segment_loop_all_segments (ss : ℚ) (total : Nat) (cs : List Completion)
    (k : Nat) (st : LoopState) :
    (segment_loop ss total (fun _ => false) k st cs).1.all_segments =
      st.all_segments ++ cs.filterMap (toTSeg ss) :=
  (segment_loop_append ss total cs k st).1

/-- Equation form of `segment_loop_append`, transcript component. -/
theorem segment_loop_transcript (ss : ℚ) (total : Nat) (cs : List Completion)
    (k : Nat) (st : LoopState) :
    (segment_loop ss total (fun _ => false) k st cs).1.transcript =
      st.transcript ++ concatAll (cs.filterMap transcriptLine) :=
  (segment_loop_append ss total cs k st).2

/-- A stopped or cancelled loop result renders nothing and ends with the
stopped event. -/
theorem run_after_loop_stopped (fs sr : Bool) (r : LoopState × Bool)
    (h : r.2 = true ∨ fs = true) :
    (run_after_loop fs sr r).displayed = none ∧
    (run_after_loop fs sr r).events.getLast? = some stoppedEvent := by
  rw [run_after_loop]
  by_cases h2 : r.2 = true
  · rw [if_pos h2]
    exact ⟨rfl, List.getLast?_concat _⟩
  · rcases h with h | h
    · exact absurd h h2
    · rw [if_neg h2, if_pos h]
      exact ⟨rfl, List.getLast?_concat _⟩

/-- An unstopped loop result completes the run and renders. -/
theorem run_after_loop_success (sr : Bool) (r : LoopState × Bool) (h : r.2 = false) :
    run_after_loop false sr r =
      ⟨r.1.events ++ [((100 : ℤ), "Transcription completed.")],
        some (if sr then generate_srt_text_with_speakers r.1.all_segments
          else pyStrip r.1.transcript)⟩ := by
  rw [run_after_loop, if_neg (by rw [h]; exact Bool.false_ne_true),
    if_neg Bool.false_ne_true]

/-- A stop observation within the loop's range aborts the loop. -/
theorem segment_loop_stops (ss : ℚ) (total : Nat) (stop : Nat → Bool) :
    ∀ (cs : List Completion) (k : Nat) (st : LoopState),
      (∃ j, j < cs.length ∧ stop (k + j) = true) →
      (segment_loop ss total stop k st cs).2 = true := by
  intro cs
  induction cs with
  | nil =>
    rintro k st ⟨j, hj, _⟩
    exact absurd hj (Nat.not_lt_zero j)
  | cons c cs ih =>
    rintro k st ⟨j, hj, hsj⟩
    simp only [segment_loop]
    by_cases h0 : stop k = true
    · rw [if_pos h0]
    · rw [if_neg h0]
      apply ih (k + 1)
      rcases j with _ | j'
      · exact absurd (by simpa using hsj) h0
      · exact ⟨j', by simpa using hj,
          by rw [show k + 1 + j' = k + Nat.succ j' from by omega]; exact hsj⟩

/-! ## Claims C1, C2, C8 -/

/-- C1 counterexample: with the two planned segments `[0,60)` and
`[60,120)` finishing in reversed order (both with nonempty text), the
accumulator ends up `[60,...]` before `[0,...]` and the plain transcript
lists the later segment's text `x` first — the output order follows
completion order, not original start-time order, so the claim is false. -/
theorem c1_counterexample_out_of_order_completion :
    ((segment_loop 0 2 (fun _ => false) 0 ⟨"", [], []⟩
        [(⟨"Speaker 1", 60, 120⟩, some ("x")),
         (⟨"Speaker 1", 0, 60⟩, some ("y"))]).1.all_segments).map TSeg.start =
      [60, 0] ∧
    ¬((60 : ℚ) ≤ 0) ∧
    (segment_loop 0 2 (fun _ => false) 0 ⟨"", [], []⟩
        [(⟨"Speaker 1", 60, 120⟩, some ("x")),
         (⟨"Speaker 1", 0, 60⟩, some ("y"))]).1.transcript =
      "Speaker 1: x\nSpeaker 1: y\n" := by
  have hx : ¬(("x" : String) = "") := by decide
  have hy : ¬(("y" : String) = "") := by decide
  refine ⟨?_, by norm_num, ?_⟩
  · rw [segment_loop_all_segments]
    simp only [List.filterMap_cons, List.filterMap_nil, toTSeg, if_neg hx, if_neg hy]
    simp only [List.nil_append, List.map_cons, List.map_nil]
    norm_num
  · rw [segment_loop_transcript]
    simp only [List.filterMap_cons, List.filterMap_nil, transcriptLine, if_neg hx, if_neg hy]
    simp only [concatAll]
    rw [String.empty_append]
    rw [String.append_empty]
    decide

/-- C1 (amended): completed results are *appended* to the accumulator in
completion order — `all_segments` equals the completion sequence filtered
to the tasks that returned nonempty text, with the trim offset added — and
the rendered output (subtitle text or stripped plain transcript) is built
from that completion-ordered list.  The final order therefore equals
original start-time order only when completions happen to arrive in that
order; it is not independent of completion order. -/
theorem c1_amended_results_follow_completion_order
    (ss : ℚ) (total nw : Nat) (srtReq : Bool) (cs : List Completion) :
    (segment_loop ss total (fun _ => false) 0 ⟨"", [], []⟩ cs).1.all_segments =
      cs.filterMap (toTSeg ss) ∧
    (transcribe_file_run
        ⟨false, srtReq, nw, ss, total, false, false, fun _ => false, false, cs⟩).displayed =
      some (if srtReq then generate_srt_text_with_speakers (cs.filterMap (toTSeg ss))
        else pyStrip (concatAll (cs.filterMap transcriptLine))) := by
  constructor
  · rw [segment_loop_all_segments]
    simp
  · simp only [transcribe_file_run, Bool.false_and, Bool.false_eq_true, if_false]
    rw [run_after_loop_success _ _ (segment_loop_no_stop ss total cs 0 _)]
    simp only [segment_loop_all_segments, segment_loop_transcript, List.nil_append,
      String.empty_append]

/-- C2 counterexample: one planned segment whose transcriber returns empty
text: the run's only progress event reports 20 percent — `completed` counts
only *appended* (nonempty) results, and the baseline is 20, not 10 — while
the claimed formula `10 + 80 * completed/total` with the empty segment
counted as completed predicts 90.  Both parts of the claim are false. -/
theorem c2_counterexample_empty_text_progress :
    (segment_loop 0 1 (fun _ => false) 0 ⟨"", [], []⟩
        [(⟨"Speaker 1", 0, 60⟩, some (""))]).1.events =
      [((20 : ℤ), "Transcribed 0 of 1 segments...")] ∧
    (10 : ℤ) + 80 * 1 / 1 = 90 ∧
    ¬((20 : ℤ) = 90) := by
  refine ⟨?_, by decide, by decide⟩
  rw [segment_loop_events]
  have hc : List.countP appendedB
      (List.take (0 + 1) [((⟨"Speaker 1", 0, 60⟩ : Seg), some (""))]) = 0 := by decide
  rw [show List.range
      ([((⟨"Speaker 1", 0, 60⟩ : Seg), some (""))] : List Completion).length = [0] from rfl]
  simp only [List.map_cons, List.map_nil, List.nil_append, List.length_nil, hc]
  have hv : progressVal 1 (0 + 0) = 20 := by
    rw [progressVal]
    exact pyInt_eval (by norm_num) (by norm_num) (by norm_num)
  have hm : progressMsg 1 (0 + 0) = "Transcribed 0 of 1 segments..." := by decide
  rw [hv, hm]

/-- C2 (amended): after the `j`-th completed task the orchestrator emits
progress `int(20 + 80 * completed/total)` — baseline 20, not 10 — where
`completed` counts only the tasks so far whose transcriber returned
*nonempty* text (an empty-text or failed segment advances neither the
count nor, at fixed count, the percentage, though an event is still
emitted for it). -/
theorem c2_amended_progress_formula (ss : ℚ) (total : Nat) (cs : List Completion) :
    (segment_loop ss total (fun _ => false) 0 ⟨"", [], []⟩ cs).1.events =
      (List.range cs.length).map (fun j =>
        (progressVal total ((cs.take (j + 1)).countP appendedB),
         progressMsg total ((cs.take (j + 1)).countP appendedB))) ∧
    ∀ n : Nat, progressVal total n = pyInt ((20 : ℚ) + 80 * (n : ℚ) / (total : ℚ)) := by
  constructor
  · have h := segment_loop_events ss total cs 0 ⟨"", [], []⟩
    simpa using h
  · intro n
    rfl

/-- C8: whenever the stop flag is observed set at one of the run's
checkpoints — after diarization, before the segment loop, before
processing any completed task, or at the post-loop check — the run ends
cancelled: nothing is rendered and the final progress event is
`(0, "Transcription stopped.")`. -/
theorem c8_cancellation_terminates_run (p : RunParams)
    (h : (p.diarEnabled = true ∧ p.stopAfterDiar = true) ∨ p.stopBeforeLoop = true ∨
      (∃ j, j < p.completions.length ∧ p.stopInLoop j = true) ∨ p.stopFinal = true) :
    (transcribe_file_run p).displayed = none ∧
    (transcribe_file_run p).events.getLast? = some stoppedEvent := by
  simp only [transcribe_file_run]
  by_cases h1 : (p.diarEnabled && p.stopAfterDiar) = true
  · rw [if_pos h1]
    exact ⟨rfl, List.getLast?_concat _⟩
  · rw [if_neg h1]
    by_cases h2 : p.stopBeforeLoop = true
    · rw [if_pos h2]
      exact ⟨rfl, List.getLast?_concat _⟩
    · rw [if_neg h2]
      apply run_after_loop_stopped
      rcases h with ⟨hd, ha⟩ | hb | ⟨j, hj, hsl⟩ | hf
      · exact absurd (by rw [hd, ha] ; rfl : (p.diarEnabled && p.stopAfterDiar) = true) h1
      · exact absurd hb h2
      · exact Or.inl (segment_loop_stops p.start_sec p.total p.stopInLoop p.completions 0 _
          ⟨j, hj, by simpa using hsl⟩)
      · exact Or.inr hf

/-- C8 witness: a run whose stop flag is observed set at the pre-loop
checkpoint renders nothing and ends with the stopped event. -/
theorem c8_cancellation_terminates_run_witness :
    (transcribe_file_run
        ⟨false, false, 1, 0, 0, false, true, fun _ => false, false, []⟩).displayed = none ∧
    (transcribe_file_run
        ⟨false, false, 1, 0, 0, false, true, fun _ => false, false, []⟩).events.getLast? =
      some stoppedEvent :=
  c8_cancellation_terminates_run _ (Or.inr (Or.inl rfl))

/-! ## Claims C9, C10 -/

/-- Threads whose program counter is inside the `with self.model_lock`
block hold the lock. -/
theorem pool_lock_invariant : ∀ (s : PoolState), PoolReachable s →
    ∀ t : Nat, (s.pc t = 4 ∨ s.pc t = 5) → s.lock = some t := by
  have hupd : ∀ (f : Nat → Nat) (t' v : Nat), ¬(v = 4) → ¬(v = 5) →
      ∀ (lock : Option Nat), (∀ t, (f t = 4 ∨ f t = 5) → lock = some t) →
      ∀ t, (Function.update f t' v t = 4 ∨ Function.update f t' v t = 5) → lock = some t := by
    intro f t' v hv4 hv5 lock ih t ht
    by_cases hte : t = t'
    · subst hte
      rw [Function.update_same] at ht
      rcases ht with hval | hval
      · exact absurd hval hv4
      · exact absurd hval hv5
    · rw [Function.update_noteq hte] at ht
      exact ih t ht
  intro s h
  induction h with
  | refl =>
    intro t ht
    rcases ht with h4 | h4 <;> exact absurd h4 (by simp [initPool])
  | tail hsteps hstep ih =>
    cases hstep with
    | check_pass t' hpc => exact hupd _ t' 1 (by decide) (by decide) _ ih
    | check_stop t' hpc => exact hupd _ t' 7 (by decide) (by decide) _ ih
    | extract_ok t' hpc => exact hupd _ t' 2 (by decide) (by decide) _ ih
    | extract_fail t' hpc => exact hupd _ t' 7 (by decide) (by decide) _ ih
    | export_ok t' hpc => exact hupd _ t' 3 (by decide) (by decide) _ ih
    | export_fail t' hpc => exact hupd _ t' 7 (by decide) (by decide) _ ih
    | cleanup t' hpc => exact hupd _ t' 7 (by decide) (by decide) _ ih
    | acquire t' hpc hlock =>
      intro t ht
      dsimp only at ht ⊢
      by_cases hte : t = t'
      · subst hte; rfl
      · have hold := ih t (by rwa [Function.update_noteq hte] at ht)
        rw [hlock] at hold
        exact absurd hold (by simp)
    | infer t' hpc =>
      intro t ht
      dsimp only at ht ⊢
      by_cases hte : t = t'
      · subst hte
        exact ih t (Or.inl hpc)
      · rw [Function.update_noteq hte] at ht
        exact ih t ht
    | release t' hpc =>
      intro t ht
      dsimp only at ht ⊢
      by_cases hte : t = t'
      · subst hte
        rw [Function.update_same] at ht
        rcases ht with hval | hval <;> exact absurd hval (by decide)
      · rw [Function.update_noteq hte] at ht
        have h1 := ih t ht
        have h2 := ih t' (Or.inr hpc)
        rw [h2] at h1
        exact absurd (Option.some.inj h1) (Ne.symm hte)

/-- C9: in every reachable interleaving of the worker pool, no two
distinct threads are simultaneously inside `model.transcribe` — every
inference call happens while holding the single global `model_lock` —
even though extraction and export steps may interleave freely. -/
theorem c9_model_lock_mutual_exclusion (s : PoolState) (h : PoolReachable s)
    (t u : Nat) (hne : ¬(t = u)) : ¬(s.pc t = 4 ∧ s.pc u = 4) := by
  rintro ⟨ht, hu⟩
  have h1 := pool_lock_invariant s h t (Or.inl ht)
  have h2 := pool_lock_invariant s h u (Or.inl hu)
  rw [h1] at h2
  exact hne (Option.some.inj h2)

/-- C9 witness: the exclusion property applied at the initial pool state
for threads 0 and 1. -/
theorem c9_model_lock_mutual_exclusion_witness :
    ¬(initPool.pc 0 = 4 ∧ initPool.pc 1 = 4) :=
  c9_model_lock_mutual_exclusion initPool Relation.ReflTransGen.refl 0 1 (by decide)

/-- C10: `transcribe_segment` creates the per-segment temporary WAV and,
whenever the export succeeded, deletes it before returning — whether the
model inference succeeded or raised; but when the export itself fails the
function returns the empty string without deleting the already-created
temporary file, leaving it on disk. -/
theorem c10_temp_file_lifecycle (env : SegEnv)
    (hstop : env.stopSet = false) (hex : env.extractOk = true) :
    (env.exportOk = true →
      (transcribe_segment env).tempCreated = true ∧
      (transcribe_segment env).tempDeleted = true) ∧
    (env.exportOk = false →
      (transcribe_segment env).result = some ("") ∧
      (transcribe_segment env).tempCreated = true ∧
      (transcribe_segment env).tempDeleted = false) := by
  obtain ⟨st, exo, expo, ir⟩ := env
  simp only at hstop hex
  subst hstop
  subst hex
  constructor
  · intro hexp
    simp only at hexp
    subst hexp
    cases ir <;> simp [transcribe_segment]
  · intro hexp
    simp only at hexp
    subst hexp
    simp [transcribe_segment]

/-- C10 witness: the lifecycle statement at a successful environment. -/
theorem c10_temp_file_lifecycle_witness :
    ((⟨false, true, true, some ("ok")⟩ : SegEnv).exportOk = true →
      (transcribe_segment ⟨false, true, true, some ("ok")⟩).tempCreated = true ∧
      (transcribe_segment ⟨false, true, true, some ("ok")⟩).tempDeleted = true) ∧
    ((⟨false, true, true, some ("ok")⟩ : SegEnv).exportOk = false →
      (transcribe_segment ⟨false, true, true, some ("ok")⟩).result = some ("") ∧
      (transcribe_segment ⟨false, true, true, some ("ok")⟩).tempCreated = true ∧
      (transcribe_segment ⟨false, true, true, some ("ok")⟩).tempDeleted = false) :=
  c10_temp_file_lifecycle ⟨false, true, true, some ("ok")⟩ rfl rfl

end SoftWhisper
